import Mathlib

/-!
Shallow embedding of the `hat-changer` time tracker (`src/main.rs`).

Durations and epoch timestamps (`std::time::Duration`) are modelled as
nanosecond counts in `Nat`.  The system clock read
`SystemTime::now().duration_since(UNIX_EPOCH)` is fallible and is passed
to each handler as a `now : Option Nat` parameter (`none` = the read
fails with a `SystemTimeError`).  The external duration parser
(`go_parse_duration::parse_duration`, returning `Result<i64>`) is passed
to `handle_edit` as an oracle parameter `parsed : Option Int` (`none` =
parse error).  Rust's `Duration - Duration` panics on underflow; a panic
is a distinct outcome of a command.  `HashMap<String, Project>` is
modelled as an association list with the usual lookup / update / insert /
remove operations; a `HashMap` never holds duplicate keys, and none of
the operations below introduce one.
-/

namespace HatChanger

/-- `struct LoggedTime` of `src/main.rs`: one logged entry. -/
structure LoggedTime where
  start_epoch : Nat
  duration : Nat
  description : String
deriving DecidableEq, Repr

/-- `struct Project` of `src/main.rs`. -/
structure Project where
  start_epoch : Option Nat
  logged_times : List LoggedTime
deriving DecidableEq, Repr

/-- `struct ProjectList` of `src/main.rs`: the whole persisted store. -/
structure ProjectList where
  projects : List (String × Project)
  active_project : Option String
deriving DecidableEq, Repr

/-- `enum Error` of `src/main.rs` (payloads that are only printed are kept). -/
inductive Error where
  | ParseDuration
  | SystemTime
  | UnknownProject (name : String)
  | NoActiveProject
  | UnknownActiveProject
  | AlreadyStarted
  | NotStarted
  | NoTimeLogged
  | NoDescription
  | ProjectExists (name : String)
deriving DecidableEq, Repr

/-- Outcome of running one handler: `Ok` with the store after the call,
`Err` with the store after the call (the store is persisted even on
error), or a panic (the process aborts, nothing is persisted). -/
inductive Outcome where
  | ok (l : ProjectList)
  | err (e : Error) (l : ProjectList)
  | panic
deriving DecidableEq, Repr

/-- `HashMap::contains_key`. -/
def containsKey (ps : List (String × Project)) (k : String) : Bool :=
  ps.any (fun kv => kv.1 = k)

/-- `HashMap::get` / `get_mut` (read part). -/
def getProj : List (String × Project) → String → Option Project
  | [], _ => none
  | kv :: rest, k => if kv.1 = k then some kv.2 else getProj rest k

/-- Writing back through `get_mut`: replace the value stored at key `k`. -/
def setProj (ps : List (String × Project)) (k : String) (p : Project) :
    List (String × Project) :=
  ps.map (fun kv => if kv.1 = k then (kv.1, p) else kv)

/-- `HashMap::insert`. -/
def insertProj (ps : List (String × Project)) (k : String) (p : Project) :
    List (String × Project) :=
  if containsKey ps k then setProj ps k p else ps ++ [(k, p)]

/-- `HashMap::remove` (the removed value's presence is tested by the caller). -/
def removeProj (ps : List (String × Project)) (k : String) :
    List (String × Project) :=
  ps.filter (fun kv => kv.1 ≠ k)

/-- `Duration - Duration`: panics (`none`) when the subtrahend is larger. -/
def durSub (a b : Nat) : Option Nat :=
  if b ≤ a then some (a - b) else none

/-- Whitespace as recognised by `str::trim` (the ASCII subset suffices
for this embedding). -/
def isWS (c : Char) : Bool :=
  c = ' ' ∨ c = '\t' ∨ c = '\n' ∨ c = '\r'

/-- `str::trim`: strip leading and trailing whitespace. -/
def trimStr (s : String) : String :=
  ⟨((s.data.dropWhile isWS).reverse.dropWhile isWS).reverse⟩

/-- `str::is_empty` applied to a trimmed string. -/
def trimIsEmpty (s : String) : Bool :=
  (trimStr s).data.isEmpty

/-- `{ l with projects := ps }`, named so that statements stay one-liners. -/
def withProjects (l : ProjectList) (ps : List (String × Project)) : ProjectList :=
  { l with projects := ps }

/-- `Project::default()`. -/
def defaultProject : Project := ⟨none, []⟩

/-- `handle_on` (`src/main.rs:189`). -/
def handle_on (l : ProjectList) (now : Option Nat) : Outcome :=
  match l.active_project with
  | none => .err .NoActiveProject l
  | some active =>
    match getProj l.projects active with
    | none => .err .UnknownActiveProject l
    | some project =>
      if project.start_epoch.isSome then .err .AlreadyStarted l
      else
        match now with
        | none => .err .SystemTime l
        | some n =>
          let ps := setProj l.projects active { project with start_epoch := some n }
          .ok { l with projects := ps }

/-- `handle_off` (`src/main.rs:215`).  Note the source order: the
description check precedes the `start_epoch.take()`, and the `take()`
(which clears the field) precedes the fallible clock read. -/
def handle_off (l : ProjectList) (description : String) (now : Option Nat) :
    Outcome :=
  match l.active_project with
  | none => .err .NoActiveProject l
  | some active =>
    match getProj l.projects active with
    | none => .err .UnknownActiveProject l
    | some project =>
      if trimIsEmpty description then .err .NoDescription l
      else
        match project.start_epoch with
        | none => .err .NotStarted l
        | some start_epoch =>
          -- `take()` has already written `None` into the project here.
          let psTaken := setProj l.projects active { project with start_epoch := none }
          match now with
          | none => .err .SystemTime { l with projects := psTaken }
          | some n =>
            match durSub n start_epoch with
            | none => .panic
            | some duration =>
              let p' : Project :=
                { start_epoch := none,
                  logged_times := project.logged_times ++
                    [⟨start_epoch, duration, trimStr description⟩] }
              .ok { l with projects := setProj l.projects active p' }

/-- The `as u64` wrapping cast applied to the parsed `i64` nanosecond
count, followed by `Duration::from_nanos`. -/
def wrapU64 (v : Int) : Nat := (v % (2 ^ 64 : Int)).toNat

/-- Replace the `duration` field of the last element (`last_mut`). -/
def setLastDuration : List LoggedTime → Nat → List LoggedTime
  | [], _ => []
  | [t], d => [{ t with duration := d }]
  | t :: rest, d => t :: setLastDuration rest d

/-- `handle_edit` (`src/main.rs:252`).  `parsed` is the outcome of
`parse_duration(&duration.replace(' ', ""))`, an external crate treated
as an oracle: `none` = `Err`, `some v` = `Ok(v)` with `v` an `i64`. -/
def handle_edit (l : ProjectList) (parsed : Option Int) : Outcome :=
  match l.active_project with
  | none => .err .NoActiveProject l
  | some active =>
    match getProj l.projects active with
    | none => .err .UnknownActiveProject l
    | some project =>
      if project.logged_times.isEmpty then .err .NoTimeLogged l
      else
        match parsed with
        | none => .err .ParseDuration l
        | some v =>
          let p' := { project with
            logged_times := setLastDuration project.logged_times (wrapU64 v) }
          .ok { l with projects := setProj l.projects active p' }

/-- `handle_undo` (`src/main.rs:282`). -/
def handle_undo (l : ProjectList) (now : Option Nat) : Outcome :=
  match l.active_project with
  | none => .err .NoActiveProject l
  | some active =>
    match getProj l.projects active with
    | none => .err .UnknownActiveProject l
    | some project =>
      match project.start_epoch with
      | some start =>
        match now with
        | none => .err .SystemTime l
        | some n =>
          match durSub n start with
          | none => .panic
          | some _ =>
            let ps := setProj l.projects active { project with start_epoch := none }
            .ok { l with projects := ps }
      | none =>
        if project.logged_times.isEmpty then .err .NoTimeLogged l
        else
          let p' := { project with logged_times := project.logged_times.dropLast }
          .ok { l with projects := setProj l.projects active p' }

/-- The per-project total computed by `handle_list` (`src/main.rs:176`). -/
def handle_list_total (p : Project) : Nat :=
  p.logged_times.foldl (fun acc t => acc + t.duration) 0

/-- `handle_list` (`src/main.rs:162`): read-only, always `Ok`. -/
def handle_list (l : ProjectList) : Outcome := .ok l

/-- The per-project total computed by `handle_time` (`src/main.rs:340`). -/
def handle_time_total (p : Project) : Nat :=
  p.logged_times.foldl (fun acc t => acc + t.duration) 0

/-- `handle_time` (`src/main.rs:321`): read-only apart from its errors. -/
def handle_time (l : ProjectList) : Outcome :=
  match l.active_project with
  | none => .err .NoActiveProject l
  | some active =>
    match getProj l.projects active with
    | none => .err .UnknownActiveProject l
    | some _ => .ok l

/-- `handle_new` (`src/main.rs:361`). -/
def handle_new (l : ProjectList) (name : String) : Outcome :=
  if containsKey l.projects name then .err (.ProjectExists name) l
  else
    .ok { projects := insertProj l.projects name defaultProject,
          active_project := some name }

/-- `handle_delete` (`src/main.rs:376`). -/
def handle_delete (l : ProjectList) (name : String) : Outcome :=
  if containsKey l.projects name then
    let l' := { l with projects := removeProj l.projects name }
    if l'.active_project = some name then .ok { l' with active_project := none }
    else .ok l'
  else .err (.UnknownProject name) l

/-- `handle_hat` (`src/main.rs:391`). -/
def handle_hat (l : ProjectList) (name : String) : Outcome :=
  if containsKey l.projects name then .ok { l with active_project := some name }
  else .err (.UnknownProject name) l

/-- One CLI invocation (the dispatch in `main`, `src/main.rs:133`); the
environment inputs (clock outcome, parse outcome) ride on the command. -/
inductive Command where
  | List
  | On (now : Option Nat)
  | Off (description : String) (now : Option Nat)
  | Edit (parsed : Option Int)
  | Undo (now : Option Nat)
  | Time
  | New (name : String)
  | Delete (name : String)
  | Hat (name : String)
deriving DecidableEq, Repr

/-- Dispatch of `main` over the command. -/
def step (l : ProjectList) : Command → Outcome
  | .List => handle_list l
  | .On now => handle_on l now
  | .Off d now => handle_off l d now
  | .Edit parsed => handle_edit l parsed
  | .Undo now => handle_undo l now
  | .Time => handle_time l
  | .New name => handle_new l name
  | .Delete name => handle_delete l name
  | .Hat name => handle_hat l name

/-- The store an outcome leaves behind to be persisted (`none` on panic). -/
def outState : Outcome → Option ProjectList
  | .ok l => some l
  | .err _ l => some l
  | .panic => none

/-- The spec's store invariant: an active project name is a key of
`projects`. -/
def invB (l : ProjectList) : Bool :=
  l.active_project.all (fun n => containsKey l.projects n)

/-! ### Helper lemmas about the map operations -/

theorem containsKey_setProj (ps : List (String × Project)) (k n : String)
    (p : Project) : containsKey (setProj ps k p) n = containsKey ps n := by
  induction ps with
  | nil => rfl
  | cons kv rest ih =>
    have hfst : ((if kv.1 = k then (kv.1, p) else kv).1) = kv.1 := by
      by_cases h : kv.1 = k <;> simp [h]
    have ih' : (setProj rest k p).any (fun kv => decide (kv.1 = n)) =
        rest.any (fun kv => decide (kv.1 = n)) := ih
    simp only [containsKey, setProj, List.map_cons, List.any_cons, hfst]
    simp only [setProj] at ih'
    rw [ih']

theorem containsKey_append_self (ps : List (String × Project)) (k : String)
    (p : Project) : containsKey (ps ++ [(k, p)]) k = true := by
  simp [containsKey]

theorem containsKey_removeProj_self (ps : List (String × Project)) (k : String) :
    containsKey (removeProj ps k) k = false := by
  simp [removeProj, containsKey]

theorem containsKey_removeProj_ne (ps : List (String × Project)) (k m : String)
    (hne : m ≠ k) : containsKey (removeProj ps k) m = containsKey ps m := by
  induction ps with
  | nil => rfl
  | cons kv rest ih =>
    by_cases h : kv.1 = k
    · have h1 : ¬ (kv.1 = m) := fun hm => hne (by rw [← hm, h])
      have hdrop : removeProj (kv :: rest) k = removeProj rest k := by
        simp [removeProj, List.filter_cons, h]
      rw [hdrop, ih]
      simp [containsKey, h1]
    · have hkeep : removeProj (kv :: rest) k = kv :: removeProj rest k := by
        simp [removeProj, List.filter_cons, h]
      have ih' : (removeProj rest k).any (fun kv => decide (kv.1 = m)) =
          rest.any (fun kv => decide (kv.1 = m)) := ih
      rw [hkeep]
      simp only [containsKey, List.any_cons, ih']

theorem insertProj_not_contains (ps : List (String × Project)) (k : String)
    (p : Project) (h : containsKey ps k = false) :
    insertProj ps k p = ps ++ [(k, p)] := by
  simp [insertProj, h]

theorem containsKey_insertProj_self (ps : List (String × Project)) (k : String)
    (p : Project) : containsKey (insertProj ps k p) k = true := by
  unfold insertProj
  split
  · rw [containsKey_setProj]
    assumption
  · exact containsKey_append_self ps k p

theorem invB_withProjects_setProj (l : ProjectList) (a : String) (p' : Project)
    (h : invB l = true) : invB (withProjects l (setProj l.projects a p')) = true := by
  unfold invB withProjects at *
  cases ha : l.active_project with
  | none => simp [ha]
  | some n =>
    rw [ha] at h
    simp only [Option.all_some] at h
    simp [ha, containsKey_setProj, h]

theorem setLastDuration_eq (ts : List LoggedTime) (d : Nat) (h : ts ≠ []) :
    setLastDuration ts d = ts.dropLast ++ [{ ts.getLast h with duration := d }] := by
  induction ts with
  | nil => exact absurd rfl h
  | cons t rest ih =>
    cases rest with
    | nil => rfl
    | cons u rest' =>
      simp only [setLastDuration, List.dropLast_cons₂, List.getLast_cons,
        List.cons_append]
      exact congrArg (t :: ·) (ih (by simp))

/-! ### Claim theorems -/

/-- C8: for every project, the total duration computed by list-projects
(the fold over `entries[].duration` in `handle_list`) equals the total
computed by show-log (`handle_time`) for that same project. -/
theorem list_and_time_totals_agree (p : Project) :
    handle_list_total p = handle_time_total p := rfl

/-- C9: create-project fails with `ProjectExists` when the name is taken,
leaving the store unchanged; otherwise it inserts a project with empty
entries and no running timer and unconditionally selects it, so a
subsequent select-project of the same name is a no-op on the store. -/
theorem handle_new_spec (l : ProjectList) (name : String) :
    (containsKey l.projects name = true →
      handle_new l name = .err (.ProjectExists name) l)
    ∧ (containsKey l.projects name = false →
      handle_new l name = .ok ⟨l.projects ++ [(name, defaultProject)], some name⟩
      ∧ handle_hat ⟨l.projects ++ [(name, defaultProject)], some name⟩ name =
          .ok ⟨l.projects ++ [(name, defaultProject)], some name⟩) := by
  constructor
  · intro h
    simp [handle_new, h]
  · intro h
    constructor
    · simp [handle_new, h, insertProj_not_contains _ _ _ h]
    · simp [handle_hat, containsKey_append_self]

/-- C9 witness: creating "acme" in the empty store inserts it and selects
it, and re-selecting it leaves the store unchanged. -/
theorem handle_new_spec_witness :
    handle_new ⟨[], none⟩ "acme" = .ok ⟨[("acme", defaultProject)], some "acme"⟩
    ∧ handle_hat ⟨[("acme", defaultProject)], some "acme"⟩ "acme" =
        .ok ⟨[("acme", defaultProject)], some "acme"⟩ := by
  have h := (handle_new_spec ⟨[], none⟩ "acme").2 (by decide)
  simpa using h

/-- C1 counterexample: with project "a" running since 5, stop-timer whose
clock read fails returns the system-time error with `running_since`
already cleared — the persisted store differs from the store before the
command, refuting atomicity on failure as stated. -/
theorem off_systemtime_mutates :
    handle_off ⟨[("a", ⟨some 5, []⟩)], some "a"⟩ "work" none =
      .err .SystemTime ⟨[("a", ⟨none, []⟩)], some "a"⟩
    ∧ (⟨[("a", ⟨none, []⟩)], some "a"⟩ : ProjectList) ≠
        ⟨[("a", ⟨some 5, []⟩)], some "a"⟩ := by
  decide

/-- C1 amended: every command that returns an error leaves the store
unchanged, EXCEPT stop-timer failing on the system-clock read: there the
`take()` preceding the clock read has already cleared the active
project's `running_since` (and nothing else is mutated). -/
theorem error_atomicity_amended (l : ProjectList) (c : Command) (e : Error)
    (l' : ProjectList) (h : step l c = .err e l') :
    l' = l ∨ (e = .SystemTime ∧ ∃ D a p s, c = .Off D none ∧
      l.active_project = some a ∧ getProj l.projects a = some p ∧
      p.start_epoch = some s ∧
      l' = withProjects l (setProj l.projects a ⟨none, p.logged_times⟩)) := by
  cases c with
  | Off D now =>
    simp only [step, handle_off] at h
    cases ha : l.active_project with
    | none =>
      simp only [ha, Outcome.err.injEq] at h
      exact Or.inl h.2.symm
    | some a =>
      simp only [ha] at h
      cases hg : getProj l.projects a with
      | none =>
        simp only [hg, Outcome.err.injEq] at h
        exact Or.inl h.2.symm
      | some p =>
        simp only [hg] at h
        by_cases ht : trimIsEmpty D = true
        · simp only [ht, if_true, Outcome.err.injEq] at h
          exact Or.inl h.2.symm
        · simp only [ht, if_false, Bool.false_eq_true] at h
          cases hs : p.start_epoch with
          | none =>
            simp only [hs, Outcome.err.injEq] at h
            exact Or.inl h.2.symm
          | some s =>
            simp only [hs] at h
            cases now with
            | none =>
              simp only [Outcome.err.injEq] at h
              right
              have hw : withProjects l (setProj l.projects a ⟨none, p.logged_times⟩) =
                  ⟨setProj l.projects a ⟨none, p.logged_times⟩, some a⟩ := by
                unfold withProjects
                rw [← ha]
              refine ⟨h.1.symm, D, a, p, s, rfl, rfl, hg, hs, ?_⟩
              rw [hw]
              exact h.2.symm
            | some n =>
              cases hd : durSub n s with
              | none => simp [hd] at h
              | some d => simp [hd] at h
  | List => simp [step, handle_list] at h
  | Time =>
    simp only [step, handle_time] at h
    repeat' split at h
    all_goals first
      | (left
         simp only [Outcome.err.injEq] at h
         exact h.2.symm)
      | simp at h
  | On now =>
    simp only [step, handle_on] at h
    repeat' split at h
    all_goals first
      | (left
         simp only [Outcome.err.injEq] at h
         exact h.2.symm)
      | simp at h
  | Edit parsed =>
    simp only [step, handle_edit] at h
    repeat' split at h
    all_goals first
      | (left
         simp only [Outcome.err.injEq] at h
         exact h.2.symm)
      | simp at h
  | Undo now =>
    simp only [step, handle_undo] at h
    repeat' split at h
    all_goals first
      | (left
         simp only [Outcome.err.injEq] at h
         exact h.2.symm)
      | simp at h
  | New name =>
    simp only [step, handle_new] at h
    repeat' split at h
    all_goals first
      | (left
         simp only [Outcome.err.injEq] at h
         exact h.2.symm)
      | simp at h
  | Delete name =>
    simp only [step, handle_delete] at h
    repeat' split at h
    all_goals first
      | (left
         simp only [Outcome.err.injEq] at h
         exact h.2.symm)
      | simp at h
  | Hat name =>
    simp only [step, handle_hat] at h
    repeat' split at h
    all_goals first
      | (left
         simp only [Outcome.err.injEq] at h
         exact h.2.symm)
      | simp at h

/-- C1 amended witness: the amended disjunction, instantiated at the
failing stop-timer call of the counterexample. -/
theorem error_atomicity_amended_witness :
    (⟨[("a", ⟨none, []⟩)], some "a"⟩ : ProjectList) =
        ⟨[("a", ⟨some 5, []⟩)], some "a"⟩
    ∨ (Error.SystemTime = .SystemTime ∧ ∃ D a p s,
      Command.Off "work" (none : Option Nat) = .Off D none ∧
      (some "a" : Option String) = some a ∧
      getProj [("a", ⟨some 5, []⟩)] a = some p ∧
      p.start_epoch = some s ∧
      (⟨[("a", ⟨none, []⟩)], some "a"⟩ : ProjectList) =
        withProjects ⟨[("a", ⟨some 5, []⟩)], some "a"⟩
          (setProj [("a", ⟨some 5, []⟩)] a ⟨none, p.logged_times⟩)) :=
  error_atomicity_amended ⟨[("a", ⟨some 5, []⟩)], some "a"⟩ (.Off "work" none)
    .SystemTime ⟨[("a", ⟨none, []⟩)], some "a"⟩ (by decide)

/-- C5: the invariant "an active project name is a key of `projects`" is
preserved by every command: whatever store a command leaves behind (on
success or on error) satisfies it whenever the input store did. -/
theorem invariant_preserved (l : ProjectList) (c : Command) (l' : ProjectList)
    (hinv : invB l = true) (hout : outState (step l c) = some l') :
    invB l' = true := by
  cases c with
  | List =>
    simp only [step, handle_list, outState, Option.some.injEq] at hout
    subst hout
    assumption
  | Time =>
    simp only [step, handle_time] at hout
    repeat' split at hout
    all_goals simp only [outState, Option.some.injEq] at hout
    all_goals subst hout
    all_goals assumption
  | On now =>
    simp only [step, handle_on] at hout
    repeat' split at hout
    all_goals simp only [outState, Option.some.injEq] at hout
    all_goals subst hout
    all_goals first
      | assumption
      | exact invB_withProjects_setProj l _ _ hinv
  | Off D now =>
    simp only [step, handle_off] at hout
    repeat' split at hout
    all_goals simp only [outState, Option.some.injEq] at hout
    all_goals first
      | exact Option.noConfusion hout
      | (subst hout
         first
          | assumption
          | exact invB_withProjects_setProj l _ _ hinv)
  | Edit parsed =>
    simp only [step, handle_edit] at hout
    repeat' split at hout
    all_goals simp only [outState, Option.some.injEq] at hout
    all_goals subst hout
    all_goals first
      | assumption
      | exact invB_withProjects_setProj l _ _ hinv
  | Undo now =>
    simp only [step, handle_undo] at hout
    repeat' split at hout
    all_goals simp only [outState, Option.some.injEq] at hout
    all_goals first
      | exact Option.noConfusion hout
      | (subst hout
         first
          | assumption
          | exact invB_withProjects_setProj l _ _ hinv)
  | New name =>
    simp only [step, handle_new] at hout
    split at hout
    · simp only [outState, Option.some.injEq] at hout
      subst hout
      assumption
    · simp only [outState, Option.some.injEq] at hout
      subst hout
      simp [invB, containsKey_insertProj_self]
  | Delete name =>
    simp only [step, handle_delete] at hout
    split at hout
    · split at hout
      · simp only [outState, Option.some.injEq] at hout
        subst hout
        rfl
      · rename_i hact
        simp only [outState, Option.some.injEq] at hout
        subst hout
        unfold invB at *
        cases ha : l.active_project with
        | none => simp [ha]
        | some m =>
          rw [ha] at hinv
          simp only [Option.all_some] at hinv
          have hmne : m ≠ name := fun hEq => hact (by simp [ha, hEq])
          simp [ha, containsKey_removeProj_ne _ _ _ hmne, hinv]
    · simp only [outState, Option.some.injEq] at hout
      subst hout
      assumption
  | Hat name =>
    simp only [step, handle_hat] at hout
    split at hout
    · rename_i h
      simp only [outState, Option.some.injEq] at hout
      subst hout
      simp [invB, h]
    · simp only [outState, Option.some.injEq] at hout
      subst hout
      assumption

/-- C5 witness: selecting "a" in a store satisfying the invariant yields a
store satisfying it. -/
theorem invariant_preserved_witness :
    invB ⟨[("a", defaultProject)], some "a"⟩ = true :=
  invariant_preserved ⟨[("a", defaultProject)], none⟩ (.Hat "a")
    ⟨[("a", defaultProject)], some "a"⟩ (by decide) (by decide)

/-- C6: the unchecked `Duration` subtraction `now - running_since` in
stop-timer and in the undo-last cancel path: with a stored
`running_since` later than the clock reading both commands panic instead
of returning an error, and under the precondition `running_since ≤ now`
neither panics. -/
theorem unchecked_duration_sub :
    handle_off ⟨[("a", ⟨some 100, []⟩)], some "a"⟩ "x" (some 10) = .panic
    ∧ handle_undo ⟨[("a", ⟨some 100, []⟩)], some "a"⟩ (some 10) = .panic
    ∧ (∀ l D a p s n, l.active_project = some a → getProj l.projects a = some p →
      p.start_epoch = some s → s ≤ n →
      handle_off l D (some n) ≠ .panic ∧ handle_undo l (some n) ≠ .panic) := by
  refine ⟨by decide, by decide, ?_⟩
  intro l D a p s n ha hp hs hle
  constructor
  · by_cases ht : trimIsEmpty D
    · simp [handle_off, ha, hp, hs, ht]
    · simp [handle_off, ha, hp, hs, ht, durSub, hle]
  · simp [handle_undo, ha, hp, hs, durSub, hle]

/-- C6 witness: with `running_since = 3 ≤ now = 10` stop-timer does not
panic. -/
theorem unchecked_duration_sub_witness :
    handle_off ⟨[("a", ⟨some 3, []⟩)], some "a"⟩ "x" (some 10) ≠ .panic :=
  (unchecked_duration_sub.2.2 ⟨[("a", ⟨some 3, []⟩)], some "a"⟩ "x" "a"
    ⟨some 3, []⟩ 3 10 rfl (by decide) rfl (by decide)).1

/-- C7: edit-last-duration converts the parsed signed 64-bit nanosecond
count to unsigned with a wrapping cast, so every negative parse result
(e.g. the `-300000000000` that Go-style parsing yields for "-5m")
succeeds and stores `2^64 + v` nanoseconds — at least `2^63` ns — as the
last entry's duration instead of rejecting the input or storing a
negative span. -/
theorem edit_wrapping_cast (l : ProjectList) (a : String) (p : Project)
    (ha : l.active_project = some a) (hp : getProj l.projects a = some p)
    (hne : p.logged_times ≠ []) :
    ∀ v : Int, -(2 ^ 63) ≤ v → v < 0 →
      handle_edit l (some v) =
        .ok (withProjects l (setProj l.projects a ⟨p.start_epoch,
          p.logged_times.dropLast ++
            [⟨(p.logged_times.getLast hne).start_epoch, wrapU64 v,
              (p.logged_times.getLast hne).description⟩]⟩))
      ∧ wrapU64 v = (2 ^ 64 + v).toNat
      ∧ 2 ^ 63 ≤ wrapU64 v := by
  intro v h1 h2
  have hie : p.logged_times.isEmpty = false := by
    cases hl : p.logged_times with
    | nil => exact absurd hl hne
    | cons _ _ => rfl
  have hpow63 : ((2 : Int) ^ 63) = 9223372036854775808 := by norm_num
  have hpow64 : ((2 : Int) ^ 64) = 18446744073709551616 := by norm_num
  have hwrap : wrapU64 v = (2 ^ 64 + v).toNat := by
    unfold wrapU64
    rw [hpow64]
    rw [hpow64] at *
    omega
  refine ⟨?_, hwrap, ?_⟩
  · simp [handle_edit, withProjects, ha, hp, hie, setLastDuration_eq _ _ hne]
  · rw [hwrap]
    have hp63 : ((2 : Nat) ^ 63) = 9223372036854775808 := by norm_num
    rw [hp63]
    rw [hpow63] at h1
    rw [hpow64]
    omega

/-- C7 witness: a parse result of `-300000000000` ("-5m") is accepted and
stored as `2^64 - 300000000000` nanoseconds. -/
theorem edit_wrapping_cast_witness :
    handle_edit ⟨[("a", ⟨none, [⟨1, 2, "x"⟩]⟩)], some "a"⟩ (some (-300000000000)) =
      .ok ⟨[("a", ⟨none, [⟨1, 18446743773709551616, "x"⟩]⟩)], some "a"⟩ := by
  have h := (edit_wrapping_cast ⟨[("a", ⟨none, [⟨1, 2, "x"⟩]⟩)], some "a"⟩ "a"
    ⟨none, [⟨1, 2, "x"⟩]⟩ rfl (by decide) (by decide)) (-300000000000)
    (by decide) (by decide)
  rw [h.1]
  decide

/-- C10: delete-project fails with `UnknownProject` (store unchanged) when
the name is absent; otherwise it removes that entry unconditionally, and
clears `active_project` exactly when the deleted name was the active one. -/
theorem handle_delete_spec (l : ProjectList) (name : String) :
    (containsKey l.projects name = false →
      handle_delete l name = .err (.UnknownProject name) l)
    ∧ (containsKey l.projects name = true → l.active_project = some name →
      handle_delete l name = .ok ⟨removeProj l.projects name, none⟩)
    ∧ (containsKey l.projects name = true → l.active_project ≠ some name →
      handle_delete l name = .ok ⟨removeProj l.projects name, l.active_project⟩)
    ∧ containsKey (removeProj l.projects name) name = false := by
  refine ⟨?_, ?_, ?_, containsKey_removeProj_self _ _⟩
  · intro h
    simp [handle_delete, h]
  · intro h ha
    simp [handle_delete, h, ha]
  · intro h ha
    simp [handle_delete, h, ha]

/-- C2: stop-timer errors with `NoActiveProject`, `UnknownActiveProject`,
`NoDescription`, `NotStarted` in that precedence order; otherwise (clock
read succeeding and not panicking) it appends exactly one entry
`⟨running_since, now - running_since, trim D⟩` to the active project's
entries and clears `running_since`. -/
theorem handle_off_spec (l : ProjectList) (D : String) (now : Option Nat) :
    (l.active_project = none → handle_off l D now = .err .NoActiveProject l)
    ∧ (∀ a, l.active_project = some a → getProj l.projects a = none →
      handle_off l D now = .err .UnknownActiveProject l)
    ∧ (∀ a p, l.active_project = some a → getProj l.projects a = some p →
      trimIsEmpty D = true → handle_off l D now = .err .NoDescription l)
    ∧ (∀ a p, l.active_project = some a → getProj l.projects a = some p →
      trimIsEmpty D = false → p.start_epoch = none →
      handle_off l D now = .err .NotStarted l)
    ∧ (∀ a p s n, l.active_project = some a → getProj l.projects a = some p →
      trimIsEmpty D = false → p.start_epoch = some s → now = some n → s ≤ n →
      handle_off l D now =
        .ok (withProjects l
          (setProj l.projects a ⟨none, p.logged_times ++ [⟨s, n - s, trimStr D⟩]⟩))) := by
  refine ⟨?_, ?_, ?_, ?_, ?_⟩
  · intro h
    simp [handle_off, h]
  · intro a ha hg
    simp [handle_off, ha, hg]
  · intro a p ha hg ht
    simp [handle_off, ha, hg, ht]
  · intro a p ha hg ht hs
    simp [handle_off, ha, hg, ht, hs]
  · intro a p s n ha hg ht hs hn hle
    simp [handle_off, withProjects, ha, hg, ht, hs, hn, durSub, hle]

/-- C2 witness: with project "a" running since 5 and the clock at 12,
stop-timer with description "work" logs `⟨5, 7, "work"⟩` and clears the
running state. -/
theorem handle_off_spec_witness :
    handle_off ⟨[("a", ⟨some 5, []⟩)], some "a"⟩ "work" (some 12) =
      .ok ⟨[("a", ⟨none, [⟨5, 7, "work"⟩]⟩)], some "a"⟩ := by
  have h := (handle_off_spec ⟨[("a", ⟨some 5, []⟩)], some "a"⟩ "work"
      (some 12)).2.2.2.2 "a" ⟨some 5, []⟩ 5 12 rfl (by decide) (by decide) rfl rfl
      (by decide)
  rw [h]
  decide

/-- C3: undo-last on an active, existing project: with the timer running
(and the clock neither failing nor panicking) it clears `running_since`
and leaves the entries untouched; with the timer stopped and entries
non-empty it removes exactly the last entry; with the timer stopped and
no entries it fails with `NoTimeLogged`. -/
theorem handle_undo_spec (l : ProjectList) (now : Option Nat) (a : String)
    (p : Project) (ha : l.active_project = some a)
    (hp : getProj l.projects a = some p) :
    (∀ s n, p.start_epoch = some s → now = some n → s ≤ n →
      handle_undo l now =
        .ok (withProjects l (setProj l.projects a ⟨none, p.logged_times⟩)))
    ∧ (p.start_epoch = none → p.logged_times ≠ [] →
      handle_undo l now =
        .ok (withProjects l
          (setProj l.projects a ⟨p.start_epoch, p.logged_times.dropLast⟩))
      ∧ p.logged_times.dropLast.length + 1 = p.logged_times.length)
    ∧ (p.start_epoch = none → p.logged_times = [] →
      handle_undo l now = .err .NoTimeLogged l) := by
  refine ⟨?_, ?_, ?_⟩
  · intro s n hs hn hle
    simp [handle_undo, withProjects, ha, hp, hs, hn, durSub, hle]
  · intro hs hne
    have hie : p.logged_times.isEmpty = false := by
      cases hl : p.logged_times with
      | nil => exact absurd hl hne
      | cons _ _ => rfl
    refine ⟨by simp [handle_undo, withProjects, ha, hp, hs, hie], ?_⟩
    have h1 := List.length_dropLast p.logged_times
    have h2 : 0 < p.logged_times.length := List.length_pos.mpr hne
    omega
  · intro hs he
    simp [handle_undo, ha, hp, hs, he]

/-- C3 witness: with the timer stopped and one logged entry, undo-last
removes exactly that entry. -/
theorem handle_undo_spec_witness :
    handle_undo ⟨[("a", ⟨none, [⟨1, 2, "x"⟩]⟩)], some "a"⟩ (some 9) =
      .ok ⟨[("a", ⟨none, []⟩)], some "a"⟩ := by
  have h := ((handle_undo_spec ⟨[("a", ⟨none, [⟨1, 2, "x"⟩]⟩)], some "a"⟩ (some 9)
      "a" ⟨none, [⟨1, 2, "x"⟩]⟩ rfl (by decide)).2.1 rfl (by decide)).1
  rw [h]
  decide

/-- C4: on an active, existing project with at least one entry,
edit-last-duration with a rejected duration string fails with
`ParseDuration` and leaves the store unchanged; with an accepted one it
replaces only the last entry's `duration` (keeping its `started_at` and
`description`, all earlier entries, and every other project). -/
theorem handle_edit_spec (l : ProjectList) (a : String) (p : Project)
    (ha : l.active_project = some a) (hp : getProj l.projects a = some p)
    (hne : p.logged_times ≠ []) :
    (handle_edit l none = .err .ParseDuration l)
    ∧ (∀ v : Int, handle_edit l (some v) =
      .ok (withProjects l (setProj l.projects a ⟨p.start_epoch,
        p.logged_times.dropLast ++
          [⟨(p.logged_times.getLast hne).start_epoch, wrapU64 v,
            (p.logged_times.getLast hne).description⟩]⟩))) := by
  have hie : p.logged_times.isEmpty = false := by
    cases hl : p.logged_times with
    | nil => exact absurd hl hne
    | cons _ _ => rfl
  constructor
  · simp [handle_edit, ha, hp, hie]
  · intro v
    simp [handle_edit, withProjects, ha, hp, hie, setLastDuration_eq _ _ hne]

/-- C4 witness: a rejected duration string reports `ParseDuration` and
leaves the store (in particular the last entry's duration) unchanged. -/
theorem handle_edit_spec_witness :
    handle_edit ⟨[("a", ⟨none, [⟨1, 2, "x"⟩]⟩)], some "a"⟩ none =
      .err .ParseDuration ⟨[("a", ⟨none, [⟨1, 2, "x"⟩]⟩)], some "a"⟩ :=
  (handle_edit_spec ⟨[("a", ⟨none, [⟨1, 2, "x"⟩]⟩)], some "a"⟩ "a"
    ⟨none, [⟨1, 2, "x"⟩]⟩ rfl (by decide) (by decide)).1

/-- C10 witness: deleting the active project "a" removes it and clears the
active selection. -/
theorem handle_delete_spec_witness :
    handle_delete ⟨[("a", defaultProject)], some "a"⟩ "a" = .ok ⟨[], none⟩ := by
  have h := (handle_delete_spec ⟨[("a", defaultProject)], some "a"⟩ "a").2.1
    (by decide) rfl
  rw [h]
  decide

end HatChanger
